import Mathlib

/-!
Shallow embedding of `src/main.py` (3D ASCII spinning cube).

Modelling conventions:
* Python floats are modelled as exact rationals (`ℚ`); the floating-point
  error of the reference is outside the model.
* `math.cos` / `math.sin` are external library functions; the six values
  `cos/sin` of the three current angles are passed as parameters where the
  geometry pipeline needs them.  The per-frame angle bookkeeping of
  `animate_cube` (which also uses `math.pi`) is modelled over `ℝ` with the
  genuine `π`.
* Python `int(...)` truncates toward zero; `//` is floor division.
* Operations that can raise in Python (`ZeroDivisionError` in the perspective
  division, `IndexError` on list indexing) return `Option`, with `none`
  standing for the raised exception.
* A character canvas is a list of rows, each a list of `Char`, exactly as the
  Python `canvas` is a list of lists.
-/

/-- Python `int()` applied to a (rational-modelled) float: truncation toward
zero. -/
def pyInt (q : ℚ) : Int :=
  if 0 ≤ q then ⌊q⌋ else ⌈q⌉

/-- Python float `%` (used as `angle %= 2*math.pi`): `a - b * ⌊a / b⌋`,
modelled over `ℚ` for the controller state. -/
def pyModQ (a b : ℚ) : ℚ :=
  a - b * ⌊a / b⌋

/-- A character canvas: list of rows of characters. -/
abbrev Grid := List (List Char)

/-- The bounds-checked write `if 0 <= y < len(canvas) and 0 <= x < len(canvas[0]):
canvas[y][x] = char` used (three times, verbatim) in `draw_line` and
`render_frame`.  Python's `and` short-circuits, so `canvas[0]` is only read
when the row index check already succeeded (hence the canvas is nonempty). -/
def setCell (canvas : Grid) (x y : Int) (c : Char) : Grid :=
  if 0 ≤ y ∧ y < (canvas.length : Int) then
    if 0 ≤ x ∧ x < ((canvas.headD []).length : Int) then
      canvas.set y.toNat ((canvas.getD y.toNat []).set x.toNat c)
    else canvas
  else canvas

/-- Observation helper (not from the source): the character stored at column
`x` of row `y`, if both are in range. -/
def getCell (canvas : Grid) (x y : Nat) : Option Char :=
  (canvas.get? y).bind fun row => row.get? x

/-- The `while x != x2` loop of `draw_line` (the `dx > dy` branch).  `x` moves
one step toward `x2` each iteration, so the loop body runs exactly
`|x2 - x1|` times; `fuel` is that count. -/
def bresLoopX (canvas : Grid) (fuel : Nat) (x y sx sy : Int) (err dx dy : ℚ)
    (c : Char) : Grid :=
  match fuel with
  | 0 => canvas
  | n + 1 =>
    let canvas' := setCell canvas x y c
    let err' := err - dy
    if err' < 0 then
      bresLoopX canvas' n (x + sx) (y + sy) sx sy (err' + dx) dx dy c
    else
      bresLoopX canvas' n (x + sx) y sx sy err' dx dy c

/-- The `while y != y2` loop of `draw_line` (the `dx <= dy` branch); the loop
body runs exactly `|y2 - y1|` times. -/
def bresLoopY (canvas : Grid) (fuel : Nat) (x y sx sy : Int) (err dx dy : ℚ)
    (c : Char) : Grid :=
  match fuel with
  | 0 => canvas
  | n + 1 =>
    let canvas' := setCell canvas x y c
    let err' := err - dx
    if err' < 0 then
      bresLoopY canvas' n (x + sx) (y + sy) sx sy (err' + dy) dx dy c
    else
      bresLoopY canvas' n x (y + sy) sx sy err' dx dy c

/-- Embedding of `SpinningCube.draw_line`: Bresenham rasterization with a bounds check
before every write, followed by an unconditional (bounds-checked) write of the
explicit end point `(x2, y2)`. -/
def draw_line (canvas : Grid) (x1 y1 x2 y2 : Int) (c : Char) : Grid :=
  let dx := (x2 - x1).natAbs
  let dy := (y2 - y1).natAbs
  let sx : Int := if x1 < x2 then 1 else -1
  let sy : Int := if y1 < y2 then 1 else -1
  let canvas' :=
    if (dx : Int) > (dy : Int) then
      bresLoopX canvas dx x1 y1 sx sy ((dx : ℚ) / 2) (dx : ℚ) (dy : ℚ) c
    else
      bresLoopY canvas dy x1 y1 sx sy ((dy : ℚ) / 2) (dx : ℚ) (dy : ℚ) c
  setCell canvas' x2 y2 c

/-- Embedding of `SpinningCube.rotate_point`: rotate around the X, then Y, then Z axis.
The cosine/sine of each angle are parameters (they are computed by the
external `math.cos`/`math.sin` in the source). -/
def rotate_point (p : ℚ × ℚ × ℚ) (cosx sinx cosy siny cosz sinz : ℚ) :
    ℚ × ℚ × ℚ :=
  let x := p.1
  let y := p.2.1
  let z := p.2.2
  let y1 := y * cosx - z * sinx
  let z1 := y * sinx + z * cosx
  let x2 := x * cosy + z1 * siny
  let z2 := -x * siny + z1 * cosy
  let x3 := x2 * cosz - y1 * sinz
  let y3 := x2 * sinz + y1 * cosz
  (x3, y3, z2)

/-- Embedding of `SpinningCube.project_3d_to_2d`: perspective projection with camera
distance 5; `none` models the `ZeroDivisionError` raised when
`distance + z == 0`. -/
def project_3d_to_2d (size : Int) (p : ℚ × ℚ × ℚ) : Option (Int × Int) :=
  let x := p.1
  let y := p.2.1
  let z := p.2.2
  let distance : ℚ := 5
  if distance + z = 0 then none
  else
    let factor := distance / (distance + z)
    some (pyInt (x * factor * (size : ℚ)), pyInt (y * factor * (size : ℚ)))

/-- The rotate/project/center step of `render_frame` for one vertex. -/
def projectVertex (cosx sinx cosy siny cosz sinz : ℚ) (size : Int)
    (center_x center_y : Int) (v : ℚ × ℚ × ℚ) : Option (Int × Int) :=
  (project_3d_to_2d size (rotate_point v cosx sinx cosy siny cosz sinz)).map
    fun p => (p.1 + center_x, p.2 + center_y)

/-- The glyph chosen for an edge `[start, end]` in `render_frame`. -/
def edgeChar (start stop : Nat) : Char :=
  if start < 4 ∧ stop < 4 then '·'
  else if 4 ≤ start ∧ 4 ≤ stop then '█'
  else '▓'

/-- The edge-drawing loop of `render_frame`: for each edge, look up the two
projected endpoints (`none` models the `IndexError` on a bad vertex index)
and rasterize the segment with the group glyph. -/
def drawEdges (pv : List (Int × Int)) (edges : List (Nat × Nat))
    (canvas : Grid) : Option Grid :=
  edges.foldlM
    (fun cv e => do
      let p1 ← pv.get? e.1
      let p2 ← pv.get? e.2
      pure (draw_line cv p1.1 p1.2 p2.1 p2.2 (edgeChar e.1 e.2)))
    canvas

/-- The vertex-overplot loop of `render_frame`: vertex `i` is drawn with `'●'`
for the front face (`i ≥ 4`) and `'○'` for the back face, under the same
bounds check as every other write. -/
def drawVertices (pv : List (Int × Int)) (canvas : Grid) : Grid :=
  pv.enum.foldl
    (fun cv ip => setCell cv ip.2.1 ip.2.2 (if 4 ≤ ip.1 then '●' else '○'))
    canvas

/-- The body of `SpinningCube.render_frame`, parametric in the vertex and
edge tables (they are `self.vertices` / `self.edges` fields in the source). -/
def render_frame_core (cosx sinx cosy siny cosz sinz : ℚ) (size : Int)
    (vertices : List (ℚ × ℚ × ℚ)) (edges : List (Nat × Nat))
    (canvas_width canvas_height : Nat) : Option Grid := do
  let canvas : Grid :=
    List.replicate canvas_height (List.replicate canvas_width ' ')
  let center_x : Int := (canvas_width / 2 : Nat)
  let center_y : Int := (canvas_height / 2 : Nat)
  let pv ← vertices.mapM
    (projectVertex cosx sinx cosy siny cosz sinz size center_x center_y)
  let canvas ← drawEdges pv edges canvas
  pure (drawVertices pv canvas)

/-- The table `self.vertices`: the 8 corners of the unit cube (back face first). -/
def cubeVertices : List (ℚ × ℚ × ℚ) :=
  [(-1, -1, -1), (1, -1, -1), (1, 1, -1), (-1, 1, -1),
   (-1, -1, 1), (1, -1, 1), (1, 1, 1), (-1, 1, 1)]

/-- The table `self.edges`: 4 back-face, 4 front-face and 4 connecting edges. -/
def cubeEdges : List (Nat × Nat) :=
  [(0, 1), (1, 2), (2, 3), (3, 0),
   (4, 5), (5, 6), (6, 7), (7, 4),
   (0, 4), (1, 5), (2, 6), (3, 7)]

/-- Embedding of `SpinningCube.render_frame` on the fixed vertex/edge tables. -/
def render_frame (cosx sinx cosy siny cosz sinz : ℚ) (size : Int)
    (canvas_width canvas_height : Nat) : Option Grid :=
  render_frame_core cosx sinx cosy siny cosz sinz size
    cubeVertices cubeEdges canvas_width canvas_height

/-- The mutable fields of a `SpinningCube` object. -/
structure CubeState where
  size : Int
  angle_x : ℚ
  angle_y : ℚ
  angle_z : ℚ
  running : Bool
  vertices : List (ℚ × ℚ × ℚ)
  edges : List (Nat × Nat)
deriving DecidableEq

/-- Embedding of `SpinningCube.render_frame` as a method: reads the object's fields,
returns the grid together with the object state after the call (the body
assigns to no field of `self`, so the state out is the state in).  `cosq` /
`sinq` model the external `math.cos` / `math.sin`. -/
def render_frameS (cosq sinq : ℚ → ℚ) (s : CubeState)
    (canvas_width canvas_height : Nat) : Option Grid × CubeState :=
  (render_frame_core (cosq s.angle_x) (sinq s.angle_x)
      (cosq s.angle_y) (sinq s.angle_y) (cosq s.angle_z) (sinq s.angle_z)
      s.size s.vertices s.edges canvas_width canvas_height,
   s)

/-- Embedding of `ModernTerminalWindow.update_dimensions`, from the widget pixel size and
the measured character-cell size: returns the new
`(current_width, current_height, cube size)` when both widget dimensions are
positive, `none` (no update) otherwise.  Python `//` is floor division. -/
def update_dimensions (char_width char_height widget_width widget_height :
    Int) : Option (Int × Int × Int) :=
  if widget_width > 0 ∧ widget_height > 0 then
    let current_width := max 40 (widget_width.fdiv char_width)
    let current_height := max 20 (widget_height.fdiv char_height)
    let available_space := min current_width current_height
    let optimal_size := max 10 (min 35 (available_space.fdiv 3))
    some (current_width, current_height, optimal_size)
  else none

/-- The state read and written by one iteration of the `animate_cube` loop. -/
structure CtrlState where
  current_width : Int
  current_height : Int
  frame_count : Nat
  cube : CubeState

/-- One iteration of the `while self.cube.running` body of
`ModernTerminalWindow.animate_cube`.  Output: the frame handed to the display
sink this iteration (`none` when the viewport is still invalid), and the
state afterwards.  The `except` clause catches any exception during the
iteration and `break`s, modelled by clearing `running`; `twoPi` is the float
constant `2 * math.pi`. -/
def animate_step (cosq sinq : ℚ → ℚ) (twoPi : ℚ) (s : CtrlState) :
    Option Grid × CtrlState :=
  if s.current_width ≤ 0 ∨ s.current_height ≤ 0 then
    (none, s)
  else
    match render_frameS cosq sinq s.cube s.current_width.toNat
        s.current_height.toNat with
    | (none, _) => (none, { s with cube := { s.cube with running := false } })
    | (some canvas, cube') =>
      (some canvas,
       { s with
         cube :=
           { cube' with
             angle_x := pyModQ (cube'.angle_x + 5 / 100) twoPi
             angle_y := pyModQ (cube'.angle_y + 7 / 100) twoPi
             angle_z := pyModQ (cube'.angle_z + 3 / 100) twoPi }
         frame_count := s.frame_count + 1 })

/-- The float `%` of `angle %= 2 * math.pi` over `ℝ` with the genuine `π`. -/
noncomputable def wrapTwoPi (a : ℝ) : ℝ :=
  a - (2 * Real.pi) * ⌊a / (2 * Real.pi)⌋

/-- The per-frame angle update of `animate_cube` (lines 390–397): add the
fixed increments 0.05, 0.07, 0.03 and wrap each angle into `[0, 2π)`. -/
noncomputable def advanceAngles (a : ℝ × ℝ × ℝ) : ℝ × ℝ × ℝ :=
  (wrapTwoPi (a.1 + 5 / 100), wrapTwoPi (a.2.1 + 7 / 100),
   wrapTwoPi (a.2.2 + 3 / 100))

/-! ## Shape preservation: no write changes the canvas dimensions -/

/-- The list of row lengths of a canvas. -/
def rowLens (g : Grid) : List Nat := g.map List.length

theorem rowLens_set_row (g : Grid) (n : Nat) (row : List Char)
    (hlen : row.length = (g.getD n []).length) :
    rowLens (g.set n row) = rowLens g := by
  rcases Nat.lt_or_ge n g.length with hn | hn
  · apply List.ext_getElem?
    intro i
    rcases eq_or_ne i n with rfl | hne
    · rw [rowLens, List.map_set, List.getElem?_set_self (by simpa using hn)]
      simp [rowLens, List.getElem?_eq_getElem hn, hlen,
        List.getD_eq_getElem?_getD]
    · rw [rowLens, List.map_set, List.getElem?_set_ne (by omega)]
      rfl
  · rw [List.set_eq_of_length_le hn]

theorem rowLens_setCell (g : Grid) (x y : Int) (c : Char) :
    rowLens (setCell g x y c) = rowLens g := by
  unfold setCell
  split
  · split
    · next h1 h2 =>
      apply rowLens_set_row
      simp
    · rfl
  · rfl

theorem rowLens_bresLoopX (fuel : Nat) :
    ∀ (canvas : Grid) (x y sx sy : Int) (err dx dy : ℚ) (c : Char),
      rowLens (bresLoopX canvas fuel x y sx sy err dx dy c) = rowLens canvas := by
  induction fuel with
  | zero => intros; rfl
  | succ n ih =>
    intro canvas x y sx sy err dx dy c
    unfold bresLoopX
    dsimp only
    split
    · rw [ih, rowLens_setCell]
    · rw [ih, rowLens_setCell]

theorem rowLens_bresLoopY (fuel : Nat) :
    ∀ (canvas : Grid) (x y sx sy : Int) (err dx dy : ℚ) (c : Char),
      rowLens (bresLoopY canvas fuel x y sx sy err dx dy c) = rowLens canvas := by
  induction fuel with
  | zero => intros; rfl
  | succ n ih =>
    intro canvas x y sx sy err dx dy c
    unfold bresLoopY
    dsimp only
    split
    · rw [ih, rowLens_setCell]
    · rw [ih, rowLens_setCell]

theorem rowLens_draw_line (canvas : Grid) (x1 y1 x2 y2 : Int) (c : Char) :
    rowLens (draw_line canvas x1 y1 x2 y2 c) = rowLens canvas := by
  unfold draw_line
  dsimp only
  split
  · rw [rowLens_setCell, rowLens_bresLoopX]
  · rw [rowLens_setCell, rowLens_bresLoopY]

theorem rowLens_drawEdges (pv : List (Int × Int)) (edges : List (Nat × Nat)) :
    ∀ (canvas g' : Grid), drawEdges pv edges canvas = some g' →
      rowLens g' = rowLens canvas := by
  induction edges with
  | nil =>
    intro canvas g' h
    simp only [drawEdges, List.foldlM_nil] at h
    cases h
    rfl
  | cons e es ih =>
    intro canvas g' h
    simp only [drawEdges, List.foldlM_cons] at h
    cases h1 : pv.get? e.1 with
    | none => rw [h1] at h; simp at h
    | some p1 =>
      cases h2 : pv.get? e.2 with
      | none => rw [h1, h2] at h; simp at h
      | some p2 =>
        rw [h1, h2] at h
        simp only [Option.bind_some, Option.some_bind, pure,
          Option.bind_eq_bind] at h
        have := ih (draw_line canvas p1.1 p1.2 p2.1 p2.2 (edgeChar e.1 e.2)) g'
        rw [this, rowLens_draw_line]
        simpa [drawEdges] using h

theorem rowLens_drawVertices_aux (l : List (Nat × Int × Int)) :
    ∀ (canvas : Grid),
      rowLens (l.foldl
        (fun cv ip => setCell cv ip.2.1 ip.2.2 (if 4 ≤ ip.1 then '●' else '○'))
        canvas) = rowLens canvas := by
  induction l with
  | nil => intro canvas; rfl
  | cons a l ih =>
    intro canvas
    rw [List.foldl_cons, ih, rowLens_setCell]

theorem rowLens_drawVertices (pv : List (Int × Int)) (canvas : Grid) :
    rowLens (drawVertices pv canvas) = rowLens canvas :=
  rowLens_drawVertices_aux pv.enum canvas

theorem rowLens_render_frame_core (cosx sinx cosy siny cosz sinz : ℚ)
    (size : Int) (vertices : List (ℚ × ℚ × ℚ)) (edges : List (Nat × Nat))
    (w h : Nat) (g : Grid)
    (hg : render_frame_core cosx sinx cosy siny cosz sinz size vertices edges
      w h = some g) :
    rowLens g = List.replicate h w := by
  simp only [render_frame_core] at hg
  cases hpv : vertices.mapM
      (projectVertex cosx sinx cosy siny cosz sinz size
        ((w / 2 : Nat) : Int) ((h / 2 : Nat) : Int)) with
  | none => rw [hpv] at hg; simp at hg
  | some pv =>
    rw [hpv] at hg
    simp only [Option.bind_eq_bind, Option.some_bind] at hg
    cases hde : drawEdges pv edges
        (List.replicate h (List.replicate w ' ')) with
    | none => rw [hde] at hg; simp at hg
    | some canvas =>
      rw [hde] at hg
      simp only [Option.some_bind, Option.pure_def, Option.some_inj] at hg
      subst hg
      rw [rowLens_drawVertices, rowLens_drawEdges pv edges _ _ hde]
      simp [rowLens]

theorem dims_of_rowLens {g : Grid} {w h : Nat}
    (hg : rowLens g = List.replicate h w) :
    g.length = h ∧ ∀ row ∈ g, row.length = w := by
  constructor
  · have := congrArg List.length hg
    simpa [rowLens] using this
  · intro row hrow
    have : row.length ∈ rowLens g := List.mem_map_of_mem List.length hrow
    rw [hg] at this
    exact List.eq_of_mem_replicate this

/-! ## Totality: every internal operation of `render_frame` succeeds -/

theorem rotate_point_norm (x y z cosx sinx cosy siny cosz sinz : ℚ)
    (hx : cosx ^ 2 + sinx ^ 2 = 1) (hy : cosy ^ 2 + siny ^ 2 = 1)
    (hz : cosz ^ 2 + sinz ^ 2 = 1) :
    (rotate_point (x, y, z) cosx sinx cosy siny cosz sinz).1 ^ 2 +
      (rotate_point (x, y, z) cosx sinx cosy siny cosz sinz).2.1 ^ 2 +
      (rotate_point (x, y, z) cosx sinx cosy siny cosz sinz).2.2 ^ 2 =
      x ^ 2 + y ^ 2 + z ^ 2 := by
  unfold rotate_point
  dsimp only
  linear_combination
    ((x * cosy + (y * sinx + z * cosx) * siny) ^ 2 +
        (y * cosx - z * sinx) ^ 2) * hz +
      (x ^ 2 + (y * sinx + z * cosx) ^ 2) * hy + (y ^ 2 + z ^ 2) * hx

theorem project_3d_to_2d_isSome (size : Int) (p : ℚ × ℚ × ℚ)
    (h : p.1 ^ 2 + p.2.1 ^ 2 + p.2.2 ^ 2 ≤ 3) :
    (project_3d_to_2d size p).isSome := by
  unfold project_3d_to_2d
  dsimp only
  have hz : (5 : ℚ) + p.2.2 ≠ 0 := by
    intro hc
    have h1 : p.2.2 ^ 2 ≤ 3 := by nlinarith [sq_nonneg p.1, sq_nonneg p.2.1]
    have h2 : p.2.2 = -5 := by linarith
    rw [h2] at h1
    norm_num at h1
  rw [if_neg hz]
  rfl

theorem projectVertex_isSome (cosx sinx cosy siny cosz sinz : ℚ)
    (hx : cosx ^ 2 + sinx ^ 2 = 1) (hy : cosy ^ 2 + siny ^ 2 = 1)
    (hz : cosz ^ 2 + sinz ^ 2 = 1) (size cx cy : Int) (v : ℚ × ℚ × ℚ)
    (hv : v ∈ cubeVertices) :
    (projectVertex cosx sinx cosy siny cosz sinz size cx cy v).isSome := by
  unfold projectVertex
  have hs : (project_3d_to_2d size
      (rotate_point v cosx sinx cosy siny cosz sinz)).isSome := by
    apply project_3d_to_2d_isSome
    obtain ⟨x, y, z⟩ := v
    rw [rotate_point_norm x y z cosx sinx cosy siny cosz sinz hx hy hz]
    fin_cases hv <;> norm_num
  obtain ⟨p, hp⟩ := Option.isSome_iff_exists.1 hs
  rw [hp]
  rfl

theorem mapM_option_isSome {α β : Type} (f : α → Option β) :
    ∀ l : List α, (∀ a ∈ l, (f a).isSome) → ∃ l', l.mapM f = some l' := by
  intro l
  induction l with
  | nil => intro _; exact ⟨[], rfl⟩
  | cons a as ih =>
    intro h
    obtain ⟨b, hb⟩ := Option.isSome_iff_exists.1 (h a (List.mem_cons_self a as))
    obtain ⟨bs, hbs⟩ := ih fun a' ha' => h a' (List.mem_cons_of_mem a ha')
    exact ⟨b :: bs, by rw [List.mapM_cons, hb, hbs]; rfl⟩

theorem mapM_option_length {α β : Type} (f : α → Option β) :
    ∀ (l : List α) (l' : List β), l.mapM f = some l' → l'.length = l.length := by
  intro l
  induction l with
  | nil =>
    intro l' h
    simp only [List.mapM_nil] at h
    cases h
    rfl
  | cons a as ih =>
    intro l' h
    rw [List.mapM_cons] at h
    cases hb : f a with
    | none => rw [hb] at h; simp at h
    | some b =>
      rw [hb] at h
      cases hbs : as.mapM f with
      | none => rw [hbs] at h; simp at h
      | some bs =>
        rw [hbs] at h
        simp only [Option.bind_eq_bind, Option.some_bind, Option.pure_def,
          Option.some_inj] at h
        subst h
        simp [ih bs hbs]

theorem drawEdges_isSome (pv : List (Int × Int)) :
    ∀ (edges : List (Nat × Nat)) (canvas : Grid),
      (∀ e ∈ edges, e.1 < pv.length ∧ e.2 < pv.length) →
      ∃ g', drawEdges pv edges canvas = some g' := by
  intro edges
  induction edges with
  | nil => intro canvas _; exact ⟨canvas, rfl⟩
  | cons e es ih =>
    intro canvas h
    have he := h e (List.mem_cons_self e es)
    obtain ⟨p1, hp1⟩ := Option.isSome_iff_exists.1
      ((List.get?_eq_get he.1) ▸ Option.isSome_some)
    obtain ⟨p2, hp2⟩ := Option.isSome_iff_exists.1
      ((List.get?_eq_get he.2) ▸ Option.isSome_some)
    obtain ⟨g', hg'⟩ := ih (draw_line canvas p1.1 p1.2 p2.1 p2.2
      (edgeChar e.1 e.2)) fun e' he' => h e' (List.mem_cons_of_mem e he')
    refine ⟨g', ?_⟩
    simp only [drawEdges, List.foldlM_cons, hp1, hp2, Option.bind_eq_bind,
      Option.some_bind, Option.pure_def]
    simpa [drawEdges] using hg'

/-! ## Claim C1: rendering is total and all writes are in bounds -/

/-- C1: for every positive grid width and height, every scale value and every
orientation (any cosine/sine pair on the unit circle per axis), `render_frame`
raises no exception — every internal operation succeeds — and performs only
in-bounds writes: the produced grid is exactly the requested `width × height`
grid, every rasterized pixel and vertex overplot outside it having been
silently dropped by the bounds check. -/
theorem render_frame_total_in_bounds
    (cosx sinx cosy siny cosz sinz : ℚ)
    (hx : cosx ^ 2 + sinx ^ 2 = 1) (hy : cosy ^ 2 + siny ^ 2 = 1)
    (hz : cosz ^ 2 + sinz ^ 2 = 1) (size : Int) (w h : Nat)
    (hw : 0 < w) (hh : 0 < h) :
    ∃ g, render_frame cosx sinx cosy siny cosz sinz size w h = some g ∧
      g.length = h ∧ ∀ row ∈ g, row.length = w := by
  obtain ⟨pv, hpv⟩ := mapM_option_isSome
    (projectVertex cosx sinx cosy siny cosz sinz size
      ((w / 2 : Nat) : Int) ((h / 2 : Nat) : Int)) cubeVertices
    (fun v hv => projectVertex_isSome cosx sinx cosy siny cosz sinz
      hx hy hz size _ _ v hv)
  have hlen : pv.length = 8 := by
    rw [mapM_option_length _ _ _ hpv]
    rfl
  obtain ⟨c', hc'⟩ := drawEdges_isSome pv cubeEdges
    (List.replicate h (List.replicate w ' '))
    (by
      rw [hlen]
      intro e he
      fin_cases he <;> exact ⟨by norm_num, by norm_num⟩)
  have hrender : render_frame cosx sinx cosy siny cosz sinz size w h =
      some (drawVertices pv c') := by
    simp only [render_frame, render_frame_core, hpv, hc',
      Option.bind_eq_bind, Option.some_bind, Option.pure_def]
  refine ⟨drawVertices pv c', hrender, ?_⟩
  exact dims_of_rowLens (rowLens_render_frame_core _ _ _ _ _ _ _ _ _ _ _ _
    hrender)

/-- Witness for C1 at the identity orientation, an extreme scale of `10 ^ 9`
and a 5 × 5 grid. -/
theorem render_frame_total_in_bounds_witness :
    ∃ g, render_frame 1 0 1 0 1 0 (10 ^ 9) 5 5 = some g ∧
      g.length = 5 ∧ ∀ row ∈ g, row.length = 5 :=
  render_frame_total_in_bounds 1 0 1 0 1 0 (by norm_num) (by norm_num)
    (by norm_num) (10 ^ 9) 5 5 (by norm_num) (by norm_num)

/-! ## Claim C2: the returned grid always has the requested dimensions -/

/-- C2: for every positive width and height and every orientation and scale,
whenever `render_frame` returns a grid, that grid has exactly `height` rows
and every row has exactly `width` cells. -/
theorem render_frame_dims (cosx sinx cosy siny cosz sinz : ℚ) (size : Int)
    (w h : Nat) (hw : 0 < w) (hh : 0 < h) :
    (render_frame cosx sinx cosy siny cosz sinz size w h).elim True
      (fun g => g.length = h ∧ ∀ row ∈ g, row.length = w) := by
  cases hg : render_frame cosx sinx cosy siny cosz sinz size w h with
  | none => exact trivial
  | some g =>
    exact dims_of_rowLens (rowLens_render_frame_core _ _ _ _ _ _ _ _ _ _ _ _
      hg)

/-- Witness for C2 at the identity orientation, scale 12 and a 40 × 20
grid. -/
theorem render_frame_dims_witness :
    (render_frame 1 0 1 0 1 0 12 40 20).elim True
      (fun g => g.length = 20 ∧ ∀ row ∈ g, row.length = 40) :=
  render_frame_dims 1 0 1 0 1 0 12 40 20 (by norm_num) (by norm_num)

/-! ## Claim C10: only the six fixed glyphs ever appear in a grid -/

/-- The six characters that can appear in a rendered grid: the blank fill,
the three edge glyphs and the two vertex glyphs. -/
def cubeGlyphs : List Char := [' ', '·', '█', '▓', '●', '○']

/-- Every cell of the canvas holds a character from `S`. -/
def cellsIn (g : Grid) (S : List Char) : Prop :=
  ∀ row ∈ g, ∀ ch ∈ row, ch ∈ S

theorem cellsIn_setCell {g : Grid} {S : List Char} (x y : Int) {c : Char}
    (hg : cellsIn g S) (hc : c ∈ S) : cellsIn (setCell g x y c) S := by
  unfold setCell
  split
  · split
    · next h1 h2 =>
      intro row hrow ch hch
      rcases List.mem_or_eq_of_mem_set hrow with hrow' | rfl
      · exact hg row hrow' ch hch
      · rcases List.mem_or_eq_of_mem_set hch with hch' | rfl
        · have hlt : y.toNat < g.length := by omega
          have hmem : g.getD y.toNat [] ∈ g := by
            rw [List.getD_eq_getElem?_getD, List.getElem?_eq_getElem hlt]
            exact List.getElem_mem hlt
          exact hg _ hmem ch hch'
        · exact hc
    · exact fun row hrow => hg row hrow
  · exact fun row hrow => hg row hrow

theorem cellsIn_bresLoopX {S : List Char} {c : Char} (hc : c ∈ S)
    (fuel : Nat) :
    ∀ (canvas : Grid) (x y sx sy : Int) (err dx dy : ℚ), cellsIn canvas S →
      cellsIn (bresLoopX canvas fuel x y sx sy err dx dy c) S := by
  induction fuel with
  | zero => intro canvas _ _ _ _ _ _ _ hg; exact hg
  | succ n ih =>
    intro canvas x y sx sy err dx dy hg
    unfold bresLoopX
    dsimp only
    split
    · exact ih _ _ _ _ _ _ _ _ (cellsIn_setCell x y hg hc)
    · exact ih _ _ _ _ _ _ _ _ (cellsIn_setCell x y hg hc)

theorem cellsIn_bresLoopY {S : List Char} {c : Char} (hc : c ∈ S)
    (fuel : Nat) :
    ∀ (canvas : Grid) (x y sx sy : Int) (err dx dy : ℚ), cellsIn canvas S →
      cellsIn (bresLoopY canvas fuel x y sx sy err dx dy c) S := by
  induction fuel with
  | zero => intro canvas _ _ _ _ _ _ _ hg; exact hg
  | succ n ih =>
    intro canvas x y sx sy err dx dy hg
    unfold bresLoopY
    dsimp only
    split
    · exact ih _ _ _ _ _ _ _ _ (cellsIn_setCell x y hg hc)
    · exact ih _ _ _ _ _ _ _ _ (cellsIn_setCell x y hg hc)

theorem cellsIn_draw_line {S : List Char} {c : Char} (hc : c ∈ S)
    (canvas : Grid) (x1 y1 x2 y2 : Int) (hg : cellsIn canvas S) :
    cellsIn (draw_line canvas x1 y1 x2 y2 c) S := by
  unfold draw_line
  dsimp only
  split
  · exact cellsIn_setCell x2 y2 (cellsIn_bresLoopX hc _ _ _ _ _ _ _ _ _ hg) hc
  · exact cellsIn_setCell x2 y2 (cellsIn_bresLoopY hc _ _ _ _ _ _ _ _ _ hg) hc

theorem edgeChar_mem_cubeGlyphs (a b : Nat) : edgeChar a b ∈ cubeGlyphs := by
  unfold edgeChar cubeGlyphs
  split
  · simp
  · split
    · simp
    · simp

theorem cellsIn_drawEdges {S : List Char} (pv : List (Int × Int))
    (hS : ∀ a b : Nat, edgeChar a b ∈ S) :
    ∀ (edges : List (Nat × Nat)) (canvas g' : Grid),
      drawEdges pv edges canvas = some g' → cellsIn canvas S →
      cellsIn g' S := by
  intro edges
  induction edges with
  | nil =>
    intro canvas g' h hg
    simp only [drawEdges, List.foldlM_nil] at h
    cases h
    exact hg
  | cons e es ih =>
    intro canvas g' h hg
    simp only [drawEdges, List.foldlM_cons] at h
    cases h1 : pv.get? e.1 with
    | none => rw [h1] at h; simp at h
    | some p1 =>
      cases h2 : pv.get? e.2 with
      | none => rw [h1, h2] at h; simp at h
      | some p2 =>
        rw [h1, h2] at h
        simp only [Option.bind_some, Option.some_bind, pure,
          Option.bind_eq_bind] at h
        exact ih (draw_line canvas p1.1 p1.2 p2.1 p2.2 (edgeChar e.1 e.2)) g'
          (by simpa [drawEdges] using h)
          (cellsIn_draw_line (hS e.1 e.2) canvas _ _ _ _ hg)

theorem cellsIn_drawVertices_aux {S : List Char} (h1 : '●' ∈ S)
    (h2 : '○' ∈ S) (l : List (Nat × Int × Int)) :
    ∀ canvas : Grid, cellsIn canvas S →
      cellsIn (l.foldl
        (fun cv ip => setCell cv ip.2.1 ip.2.2 (if 4 ≤ ip.1 then '●' else '○'))
        canvas) S := by
  induction l with
  | nil => intro canvas hg; exact hg
  | cons a l ih =>
    intro canvas hg
    rw [List.foldl_cons]
    apply ih
    apply cellsIn_setCell _ _ hg
    split
    · exact h1
    · exact h2

theorem cellsIn_drawVertices {S : List Char} (h1 : '●' ∈ S) (h2 : '○' ∈ S)
    (pv : List (Int × Int)) (canvas : Grid) (hg : cellsIn canvas S) :
    cellsIn (drawVertices pv canvas) S :=
  cellsIn_drawVertices_aux h1 h2 pv.enum canvas hg

/-- C10: every cell of a grid returned by `render_frame` holds one of exactly
six characters — the blank fill `' '`, an edge glyph `'·'`, `'█'` or `'▓'`,
or a vertex glyph `'●'` or `'○'` — for every orientation, scale and
dimensions. -/
theorem render_frame_glyphs (cosx sinx cosy siny cosz sinz : ℚ) (size : Int)
    (w h : Nat) :
    (render_frame cosx sinx cosy siny cosz sinz size w h).elim True
      (fun g => ∀ row ∈ g, ∀ ch ∈ row, ch ∈ cubeGlyphs) := by
  cases hg : render_frame cosx sinx cosy siny cosz sinz size w h with
  | none => exact trivial
  | some g =>
    simp only [render_frame, render_frame_core] at hg
    cases hpv : cubeVertices.mapM
        (projectVertex cosx sinx cosy siny cosz sinz size
          ((w / 2 : Nat) : Int) ((h / 2 : Nat) : Int)) with
    | none => rw [hpv] at hg; simp at hg
    | some pv =>
      rw [hpv] at hg
      simp only [Option.bind_eq_bind, Option.some_bind] at hg
      cases hde : drawEdges pv cubeEdges
          (List.replicate h (List.replicate w ' ')) with
      | none => rw [hde] at hg; simp at hg
      | some canvas =>
        rw [hde] at hg
        simp only [Option.some_bind, Option.pure_def, Option.some_inj] at hg
        subst hg
        apply cellsIn_drawVertices (by simp [cubeGlyphs]) (by simp [cubeGlyphs])
        apply cellsIn_drawEdges pv edgeChar_mem_cubeGlyphs cubeEdges _ _ hde
        intro row hrow ch hch
        rw [List.eq_of_mem_replicate hrow] at hch
        rw [List.eq_of_mem_replicate hch]
        simp [cubeGlyphs]

/-! ## Claim C7: the explicit endpoint write of `draw_line` -/

theorem rowLens_length {g : Grid} {w h : Nat}
    (hrl : rowLens g = List.replicate h w) : g.length = h := by
  have := congrArg List.length hrl
  simpa [rowLens] using this

theorem rowLens_row_length {g : Grid} {w h : Nat}
    (hrl : rowLens g = List.replicate h w) {i : Nat} (hi : i < h) :
    (g.getD i []).length = w := by
  have hlen : g.length = h := rowLens_length hrl
  have h1 : (rowLens g)[i]? = some w := by
    rw [hrl, List.getElem?_replicate, if_pos hi]
  rw [rowLens, List.getElem?_map] at h1
  rw [List.getD_eq_getElem?_getD, List.getElem?_eq_getElem (by omega)]
  rw [List.getElem?_eq_getElem (by omega)] at h1
  simpa using h1

theorem getCell_setCell_write {g : Grid} {w h : Nat}
    (hrl : rowLens g = List.replicate h w) (x y : Int) (c : Char)
    (hx0 : 0 ≤ x) (hxw : x < (w : Int)) (hy0 : 0 ≤ y) (hyh : y < (h : Int)) :
    getCell (setCell g x y c) x.toNat y.toNat = some c := by
  have hlen : g.length = h := rowLens_length hrl
  have hylt : y.toNat < g.length := by omega
  have hrow : (g.getD y.toNat []).length = w :=
    rowLens_row_length hrl (by omega)
  have hhead : (g.headD []).length = w := by
    have h0 : (g.getD 0 []).length = w := rowLens_row_length hrl (by omega)
    rwa [List.getD_eq_getElem?_getD, ← List.head?_eq_getElem?,
      ← List.headD_eq_head?_getD] at h0
  unfold setCell
  rw [if_pos ⟨hy0, by omega⟩, if_pos ⟨hx0, by rw [hhead]; omega⟩]
  unfold getCell
  rw [List.get?_eq_getElem?, List.getElem?_set_self (by omega)]
  simp only [Option.some_bind, Option.bind_some]
  rw [List.get?_eq_getElem?, List.getElem?_set_self (by omega)]

/-- C7: for every pair of integer endpoints and every uniform `w × h` grid,
`draw_line` (re-)writes the explicit endpoint `(x2, y2)` after its stepping
loop whenever that endpoint is within grid bounds — even when the stepping
loop's terminal condition left that cell unwritten — and every write it makes
is bounds-checked, so the grid keeps exactly its `w × h` shape. -/
theorem draw_line_endpoint (canvas : Grid) (w h : Nat)
    (hcanvas : rowLens canvas = List.replicate h w) (x1 y1 x2 y2 : Int)
    (c : Char) (hx0 : 0 ≤ x2) (hxw : x2 < (w : Int)) (hy0 : 0 ≤ y2)
    (hyh : y2 < (h : Int)) :
    getCell (draw_line canvas x1 y1 x2 y2 c) x2.toNat y2.toNat = some c ∧
      rowLens (draw_line canvas x1 y1 x2 y2 c) = List.replicate h w := by
  constructor
  · unfold draw_line
    dsimp only
    split
    · exact getCell_setCell_write
        (by rw [rowLens_bresLoopX, hcanvas]) x2 y2 c hx0 hxw hy0 hyh
    · exact getCell_setCell_write
        (by rw [rowLens_bresLoopY, hcanvas]) x2 y2 c hx0 hxw hy0 hyh
  · rw [rowLens_draw_line, hcanvas]

/-- Witness for C7: a segment starting far outside a 2 × 2 grid whose
endpoint `(1, 0)` is in bounds ends up written. -/
theorem draw_line_endpoint_witness :
    getCell (draw_line [[' ', ' '], [' ', ' ']] 5 5 1 0 '*') 1 0 = some '*' ∧
      rowLens (draw_line [[' ', ' '], [' ', ' ']] 5 5 1 0 '*') =
        List.replicate 2 2 := by
  have := draw_line_endpoint [[' ', ' '], [' ', ' ']] 2 2 (by rfl) 5 5 1 0 '*'
    (by norm_num) (by norm_num) (by norm_num) (by norm_num)
  simpa using this

/-! ## Claim C5: the projection and centering formula -/

/-- Truncation toward zero as the spec words it ("integer truncation, not
round-to-nearest"): drop the fractional part of the absolute value, keep the
sign.  Stated independently of `pyInt` for the refinement proof. -/
def truncTowardZero (q : ℚ) : Int :=
  if q < 0 then -⌊-q⌋ else ⌊q⌋

/-- The spec's screen-coordinate formula (§4.1 steps 3–4): camera distance
`D = 5`, `factor = D / (D + z)`, screen coordinates `x·factor·scale` and
`y·factor·scale` truncated toward zero, then translated by
`(width / 2, height / 2)` with integer division. -/
def specScreen (scale : Int) (w h : Nat) (p : ℚ × ℚ × ℚ) : Int × Int :=
  let D : ℚ := 5
  let factor := D / (D + p.2.2)
  (truncTowardZero (p.1 * factor * scale) + ((w / 2 : Nat) : Int),
   truncTowardZero (p.2.1 * factor * scale) + ((h / 2 : Nat) : Int))

theorem pyInt_eq_truncTowardZero (q : ℚ) : pyInt q = truncTowardZero q := by
  unfold pyInt truncTowardZero
  rcases lt_or_le q 0 with hq | hq
  · rw [if_neg (not_le.mpr hq), if_pos hq, Int.floor_neg]
    ring
  · rw [if_pos hq, if_neg (not_lt.mpr hq)]

/-- C5: for every rotated point `(x, y, z)` and every scale, the rendered
vertex position equals the spec formula: camera distance 5,
`factor = 5 / (5 + z)`, coordinates `x·factor·scale` and `y·factor·scale`
truncated toward zero (not rounded to nearest), then translated by
`(width / 2, height / 2)` using integer division. -/
theorem projectVertex_matches_spec (cosx sinx cosy siny cosz sinz : ℚ)
    (size : Int) (w h : Nat) (v : ℚ × ℚ × ℚ)
    (hz : (5 : ℚ) + (rotate_point v cosx sinx cosy siny cosz sinz).2.2 ≠ 0) :
    projectVertex cosx sinx cosy siny cosz sinz size
        ((w / 2 : Nat) : Int) ((h / 2 : Nat) : Int) v =
      some (specScreen size w h
        (rotate_point v cosx sinx cosy siny cosz sinz)) := by
  unfold projectVertex project_3d_to_2d specScreen
  dsimp only
  rw [if_neg hz]
  simp [pyInt_eq_truncTowardZero]

/-- Witness for C5: the front-top-right cube corner at the identity
orientation, scale 10, in a 21 × 21 grid. -/
theorem projectVertex_matches_spec_witness :
    projectVertex 1 0 1 0 1 0 10 ((21 / 2 : Nat) : Int) ((21 / 2 : Nat) : Int)
        (1, 1, 1) =
      some (specScreen 10 21 21 (rotate_point (1, 1, 1) 1 0 1 0 1 0)) :=
  projectVertex_matches_spec 1 0 1 0 1 0 10 21 21 (1, 1, 1)
    (by norm_num [rotate_point])

/-! ## Claim C6: the identity-orientation concrete scenario -/

/-- C6 counterexample: with angles `(0,0,0)`, scale 10, width = height = 21,
the back-face vertices project to the square with corners `(-2, -2)` and
`(22, 22)` — its side is `24`, not `2 × (5/4) × 10 = 25` as the claim's
"side 2×factor×10" asserts (truncation toward zero shrinks `±12.5` to
`±12`); likewise the front square's side is `16`, not `2 × (5/6) × 10`. -/
theorem projected_squares_counterexample :
    cubeVertices.mapM
        (projectVertex 1 0 1 0 1 0 10 ((21 / 2 : Nat) : Int)
          ((21 / 2 : Nat) : Int)) =
      some [(-2, -2), (22, -2), (22, 22), (-2, 22),
            (2, 2), (18, 2), (18, 18), (2, 18)] ∧
      ((22 : ℚ) - (-2) ≠ 2 * (5 / 4) * 10) ∧
      ((18 : ℚ) - 2 ≠ 2 * (5 / 6) * 10) := by
  refine ⟨by with_unfolding_all decide, by norm_num, by norm_num⟩

/-- C6 amended: with angles `(0,0,0)`, scale 10, width = height = 21, the 8
projected vertices form two concentric axis-aligned screen squares centered
at cell `(10, 10)`: the back face (pre-rotation `z = -1`, factor `5/4`) at
half-side `truncate((5/4)·10) = 12` and the front face (pre-rotation
`z = +1`, factor `5/6`) at half-side `truncate((5/6)·10) = 8`, so every
front-face vertex lies strictly inside the back-face square's region. -/
theorem projected_squares_amended :
    cubeVertices.mapM
        (projectVertex 1 0 1 0 1 0 10 ((21 / 2 : Nat) : Int)
          ((21 / 2 : Nat) : Int)) =
      some [(10 - 12, 10 - 12), (10 + 12, 10 - 12), (10 + 12, 10 + 12),
            (10 - 12, 10 + 12), (10 - 8, 10 - 8), (10 + 8, 10 - 8),
            (10 + 8, 10 + 8), (10 - 8, 10 + 8)] ∧
      pyInt (5 / 4 * 10) = 12 ∧ pyInt (5 / 6 * 10) = 8 ∧ (8 : Int) < 12 := by
  refine ⟨by with_unfolding_all decide, by with_unfolding_all decide,
    by with_unfolding_all decide, by decide⟩

/-! ## Claim C3: `render_frame` is deterministic and mutates nothing -/

/-- C3: `render_frame` is a pure function of the orientation angles, the
scale and the vertex/edge tables — two calls on objects agreeing on those
fields (whatever the value of the unread `running` flag) return identical
results — and a call returns the object state unchanged: the angles, the
scale and the vertex and edge tables are exactly as before. -/
theorem render_frameS_pure (cosq sinq : ℚ → ℚ) (s1 s2 : CubeState)
    (w h : Nat) (hsize : s1.size = s2.size) (hax : s1.angle_x = s2.angle_x)
    (hay : s1.angle_y = s2.angle_y) (haz : s1.angle_z = s2.angle_z)
    (hv : s1.vertices = s2.vertices) (he : s1.edges = s2.edges) :
    (render_frameS cosq sinq s1 w h).1 = (render_frameS cosq sinq s2 w h).1 ∧
      (render_frameS cosq sinq s1 w h).2 = s1 := by
  constructor
  · simp only [render_frameS, hsize, hax, hay, haz, hv, he]
  · rfl

/-- Witness for C3: two concrete cube objects differing only in the
`running` flag produce the same grid, and the call leaves the first object
unchanged. -/
theorem render_frameS_pure_witness :
    ((render_frameS (fun _ => 1) (fun _ => 0)
          ⟨20, 0, 0, 0, true, cubeVertices, cubeEdges⟩ 3 3).1 =
        (render_frameS (fun _ => 1) (fun _ => 0)
          ⟨20, 0, 0, 0, false, cubeVertices, cubeEdges⟩ 3 3).1) ∧
      (render_frameS (fun _ => 1) (fun _ => 0)
          ⟨20, 0, 0, 0, true, cubeVertices, cubeEdges⟩ 3 3).2 =
        ⟨20, 0, 0, 0, true, cubeVertices, cubeEdges⟩ :=
  render_frameS_pure (fun _ => 1) (fun _ => 0)
    ⟨20, 0, 0, 0, true, cubeVertices, cubeEdges⟩
    ⟨20, 0, 0, 0, false, cubeVertices, cubeEdges⟩ 3 3 rfl rfl rfl rfl rfl rfl

/-! ## Claim C8: an invalid viewport makes the loop iteration a no-op -/

/-- C8: whenever the stored viewport width or height is ≤ 0 at the top of a
render-loop iteration, that iteration produces no frame, advances no
orientation angle, increments no frame counter, lets no exception escape
(the step is total and takes the early-`continue` branch), and leaves the
state exactly as it was, so the loop keeps waiting and retries. -/
theorem animate_step_invalid_viewport (cosq sinq : ℚ → ℚ) (twoPi : ℚ)
    (s : CtrlState) (h : s.current_width ≤ 0 ∨ s.current_height ≤ 0) :
    animate_step cosq sinq twoPi s = (none, s) := by
  unfold animate_step
  rw [if_pos h]

/-- Witness for C8: a concrete controller state with width 0. -/
theorem animate_step_invalid_viewport_witness :
    animate_step (fun _ => 1) (fun _ => 0) (628 / 100)
        ⟨0, 24, 7, ⟨20, 0, 0, 0, true, cubeVertices, cubeEdges⟩⟩ =
      (none, ⟨0, 24, 7, ⟨20, 0, 0, 0, true, cubeVertices, cubeEdges⟩⟩) :=
  animate_step_invalid_viewport (fun _ => 1) (fun _ => 0) (628 / 100)
    ⟨0, 24, 7, ⟨20, 0, 0, 0, true, cubeVertices, cubeEdges⟩⟩
    (Or.inl (by norm_num))

/-! ## Claim C9: resize clamping and the optimal-scale policy -/

/-- The spec's clamp: `clamp(lo, hi, v) = max lo (min hi v)`. -/
def clamp (lo hi v : Int) : Int := max lo (min hi v)

/-- C9: on every resize notification with positive widget dimensions, the
derived character-cell viewport is clamped to width ≥ 40 and height ≥ 20,
and the cube scale is set to `min(width, height) // 3` clamped into
`[10, 35]` — exactly the spec's `clamp(minScale, maxScale,
min(width, height) / divisor)` policy with divisor 3, minimum 10 and
maximum 35. -/
theorem update_dimensions_clamps
    (char_width char_height widget_width widget_height : Int)
    (hw : 0 < widget_width) (hh : 0 < widget_height) :
    ∃ w h s, update_dimensions char_width char_height widget_width
        widget_height = some (w, h, s) ∧
      40 ≤ w ∧ 20 ≤ h ∧ s = clamp 10 35 ((min w h).fdiv 3) ∧
      10 ≤ s ∧ s ≤ 35 := by
  unfold update_dimensions
  rw [if_pos ⟨hw, hh⟩]
  refine ⟨_, _, _, rfl, le_max_left _ _, le_max_left _ _, rfl,
    le_max_left _ _, ?_⟩
  have := min_le_left (35 : Int)
    ((min (max 40 (widget_width.fdiv char_width))
      (max 20 (widget_height.fdiv char_height))).fdiv 3)
  omega

/-- Witness for C9: an 800 × 600 pixel widget with 10 × 20 pixel character
cells. -/
theorem update_dimensions_clamps_witness :
    ∃ w h s, update_dimensions 10 20 800 600 = some (w, h, s) ∧
      40 ≤ w ∧ 20 ≤ h ∧ s = clamp 10 35 ((min w h).fdiv 3) ∧
      10 ≤ s ∧ s ≤ 35 :=
  update_dimensions_clamps 10 20 800 600 (by norm_num) (by norm_num)

/-! ## Claim C4: iterated angle advance -/

theorem wrapTwoPi_eq_fract (a : ℝ) :
    wrapTwoPi a = (2 * Real.pi) * Int.fract (a / (2 * Real.pi)) := by
  have h2π : (2 * Real.pi) ≠ 0 := Real.two_pi_pos.ne'
  unfold wrapTwoPi
  rw [Int.fract]
  field_simp

theorem wrapTwoPi_nonneg (a : ℝ) : 0 ≤ wrapTwoPi a := by
  rw [wrapTwoPi_eq_fract]
  exact mul_nonneg Real.two_pi_pos.le (Int.fract_nonneg _)

theorem wrapTwoPi_lt (a : ℝ) : wrapTwoPi a < 2 * Real.pi := by
  rw [wrapTwoPi_eq_fract]
  calc (2 * Real.pi) * Int.fract (a / (2 * Real.pi))
      < (2 * Real.pi) * 1 :=
        mul_lt_mul_of_pos_left (Int.fract_lt_one _) Real.two_pi_pos
    _ = 2 * Real.pi := mul_one _

theorem wrapTwoPi_sub_int_mul (a : ℝ) (m : ℤ) :
    wrapTwoPi (a - 2 * Real.pi * m) = wrapTwoPi a := by
  have h2π : (2 * Real.pi) ≠ 0 := Real.two_pi_pos.ne'
  rw [wrapTwoPi_eq_fract, wrapTwoPi_eq_fract]
  congr 1
  have h : (a - 2 * Real.pi * m) / (2 * Real.pi) = a / (2 * Real.pi) - m := by
    field_simp
  rw [h, Int.fract_sub_int]

theorem wrapTwoPi_wrap_add (x c : ℝ) :
    wrapTwoPi (wrapTwoPi x + c) = wrapTwoPi (x + c) := by
  have h : wrapTwoPi x + c =
      (x + c) - 2 * Real.pi * (⌊x / (2 * Real.pi)⌋ : ℤ) := by
    unfold wrapTwoPi
    ring
  rw [h, wrapTwoPi_sub_int_mul]

theorem advanceAngles_iterate_eq (a : ℝ × ℝ × ℝ) (n : ℕ) :
    advanceAngles^[n + 1] a =
      (wrapTwoPi (a.1 + (n + 1 : ℕ) * (5 / 100)),
       wrapTwoPi (a.2.1 + (n + 1 : ℕ) * (7 / 100)),
       wrapTwoPi (a.2.2 + (n + 1 : ℕ) * (3 / 100))) := by
  induction n with
  | zero =>
    rw [Function.iterate_one]
    unfold advanceAngles
    have h1 : a.1 + 5 / 100 = a.1 + ((0 + 1 : ℕ) : ℝ) * (5 / 100) := by
      push_cast
      ring
    have h2 : a.2.1 + 7 / 100 = a.2.1 + ((0 + 1 : ℕ) : ℝ) * (7 / 100) := by
      push_cast
      ring
    have h3 : a.2.2 + 3 / 100 = a.2.2 + ((0 + 1 : ℕ) : ℝ) * (3 / 100) := by
      push_cast
      ring
    rw [h1, h2, h3]
  | succ n ih =>
    rw [Function.iterate_succ_apply', ih]
    unfold advanceAngles
    dsimp only
    rw [wrapTwoPi_wrap_add, wrapTwoPi_wrap_add, wrapTwoPi_wrap_add]
    have h1 : a.1 + ((n + 1 : ℕ) : ℝ) * (5 / 100) + 5 / 100 =
        a.1 + ((n + 1 + 1 : ℕ) : ℝ) * (5 / 100) := by
      push_cast
      ring
    have h2 : a.2.1 + ((n + 1 : ℕ) : ℝ) * (7 / 100) + 7 / 100 =
        a.2.1 + ((n + 1 + 1 : ℕ) : ℝ) * (7 / 100) := by
      push_cast
      ring
    have h3 : a.2.2 + ((n + 1 : ℕ) : ℝ) * (3 / 100) + 3 / 100 =
        a.2.2 + ((n + 1 + 1 : ℕ) : ℝ) * (3 / 100) := by
      push_cast
      ring
    rw [h1, h2, h3]

/-- C4: advancing the orientation `k ≥ 1` times — each advance adds the fixed
increments 0.05, 0.07, 0.03 to the three angles and wraps each into
`[0, 2π)` — yields, for every starting orientation, the same angles as adding
`k` times each increment once and then wrapping modulo `2π`; and after every
advance each angle lies in `[0, 2π)`. -/
theorem advanceAngles_iterate (a : ℝ × ℝ × ℝ) (k : ℕ) (hk : 1 ≤ k) :
    advanceAngles^[k] a =
      (wrapTwoPi (a.1 + k * (5 / 100)), wrapTwoPi (a.2.1 + k * (7 / 100)),
       wrapTwoPi (a.2.2 + k * (3 / 100))) ∧
      (0 ≤ (advanceAngles^[k] a).1 ∧
        (advanceAngles^[k] a).1 < 2 * Real.pi) ∧
      (0 ≤ (advanceAngles^[k] a).2.1 ∧
        (advanceAngles^[k] a).2.1 < 2 * Real.pi) ∧
      (0 ≤ (advanceAngles^[k] a).2.2 ∧
        (advanceAngles^[k] a).2.2 < 2 * Real.pi) := by
  obtain ⟨n, rfl⟩ : ∃ n, k = n + 1 := ⟨k - 1, by omega⟩
  rw [advanceAngles_iterate_eq]
  exact ⟨rfl, ⟨wrapTwoPi_nonneg _, wrapTwoPi_lt _⟩,
    ⟨wrapTwoPi_nonneg _, wrapTwoPi_lt _⟩,
    ⟨wrapTwoPi_nonneg _, wrapTwoPi_lt _⟩⟩

/-- Witness for C4: one advance from the (out-of-range) orientation
`(7, -3, 100)`. -/
theorem advanceAngles_iterate_witness :
    advanceAngles^[1] ((7 : ℝ), (-3 : ℝ), (100 : ℝ)) =
      (wrapTwoPi ((7 : ℝ) + (1 : ℕ) * (5 / 100)),
       wrapTwoPi ((-3 : ℝ) + (1 : ℕ) * (7 / 100)),
       wrapTwoPi ((100 : ℝ) + (1 : ℕ) * (3 / 100))) ∧
      (0 ≤ (advanceAngles^[1] ((7 : ℝ), (-3 : ℝ), (100 : ℝ))).1 ∧
        (advanceAngles^[1] ((7 : ℝ), (-3 : ℝ), (100 : ℝ))).1 < 2 * Real.pi) ∧
      (0 ≤ (advanceAngles^[1] ((7 : ℝ), (-3 : ℝ), (100 : ℝ))).2.1 ∧
        (advanceAngles^[1] ((7 : ℝ), (-3 : ℝ), (100 : ℝ))).2.1 <
          2 * Real.pi) ∧
      (0 ≤ (advanceAngles^[1] ((7 : ℝ), (-3 : ℝ), (100 : ℝ))).2.2 ∧
        (advanceAngles^[1] ((7 : ℝ), (-3 : ℝ), (100 : ℝ))).2.2 <
          2 * Real.pi) :=
  advanceAngles_iterate ((7 : ℝ), (-3 : ℝ), (100 : ℝ)) 1 (by norm_num)
